import Mathlib

/-!
Verification of the nanowrite wrapper (`nanowrite.py`, `nanowrite_server.py`).

Strings from the Python source are modelled as `List Char` (abbreviated
`Str`); log entries as timestamp/message records; the mutable object state of
`NanoWrite` as an explicit record threaded through the operations; Python
exceptions as explicit result constructors (`IndexError` from `lst[-1]` on an
empty list, `AssertionError` from failing `assert`, the class exceptions
`NotReady` and `ExecutionError`).  The file system seen through the sandbox
directory is an association list from paths to contents.
-/

abbrev Str := List Char

/-- Boolean test that the first list is a leading piece of the second (used to
search for a substring the way Python's `in` operator does, and to compare
path segment lists). -/
def startsWithStr {α : Type} [BEq α] : List α → List α → Bool
  | [], _ => true
  | _ :: _, [] => false
  | a :: as, b :: bs => a == b && startsWithStr as bs

/-- Python's `needle in hay` substring test. -/
def containsSub : Str → Str → Bool
  | [], needle => needle.isEmpty
  | h :: t, needle => startsWithStr needle (h :: t) || containsSub t needle

/-- Python's `s.partition(sep)` restricted to the pieces the source uses:
the text before the first occurrence of `sep` and the text after it
(`("s", "", "")` when `sep` is absent, hence `(s, [])` here). -/
def pyPartition (sep : Char) : Str → Str × Str
  | [] => ([], [])
  | c :: t =>
    if c = sep then ([], t)
    else
      let r := pyPartition sep t
      (c :: r.1, r.2)

/-- One parsed line of the NanoWrite message log, as produced by
`get_current_log`: a timestamp and the message text. -/
structure LogEntry where
  ts : Nat
  msg : Str
deriving DecidableEq, Repr

/-- The fixed marker text inserted by `execute_mini_gwl` and
`execute_complex_gwl_files` (`'MessageOut ***Seperator***\n' + commands`). -/
def seperator : Str := ("***Seperator***").data

/-- The error marker searched for by `has_finished` (`'!!!' in submsg`). -/
def errMarker : Str := ("!!!").data

/-- Completion marker (`'done.' in last_msg`). -/
def doneMarker : Str := ("done.").data

/-- Abort marker (`'aborted.' in last_msg`). -/
def abortedMarker : Str := ("aborted.").data

/-- Helper for `get_command_log`: walks the reversed log, collecting entries
until (and including) the first one whose message contains the seperator,
mirroring the `for ... break` loop of the source. -/
def get_command_log_aux : List LogEntry → List LogEntry
  | [] => []
  | e :: rest =>
    if containsSub e.msg seperator then [e]
    else e :: get_command_log_aux rest

/-- `NanoWrite.get_command_log`: iterates over `reversed(get_current_log())`,
appending entries and breaking after the entry that contains
`'***Seperator***'`, then reverses the collected list back. -/
def get_command_log (log : List LogEntry) : List LogEntry :=
  (get_command_log_aux log.reverse).reverse

/-- Modelled from the spec words for `readSinceSentinel` only (used to compare
against `get_command_log`): the entries strictly after the last occurrence of
the sentinel, or the full sequence if the sentinel is absent. -/
def readSinceSentinel_spec (log : List LogEntry) : List LogEntry :=
  (log.reverse.takeWhile (fun e => !(containsSub e.msg seperator))).reverse

/-- An RGB pixel sample, as returned by `_get_pixel`. -/
structure Pixel where
  r : Nat
  g : Nat
  b : Nat
deriving DecidableEq, Repr

/-- The progress-bar test of `has_finished`:
`pixel_val[2] > 240 and pixel_val[1] < 100 and pixel_val[0] < 100`. -/
def bar_full (px : Pixel) : Bool :=
  decide (240 < px.b) && decide (px.g < 100) && decide (px.r < 100)

/-- The `re.match(r'.*done\.', last_msg)` test of `has_finished`.  `re.match`
anchors at the start and `.` does not cross a newline, so the pattern matches
exactly when `done.` occurs within the first line of the message. -/
def reMatchDone (m : Str) : Bool :=
  containsSub (m.takeWhile (fun c => c != '\n')) doneMarker

/-- Exceptions of the wrapper that the embedded operations can surface. -/
inductive NWError
  | notReady
  | executionError (msg : Str)
  | indexError
deriving DecidableEq, Repr

/-- Outcome of a `has_finished` call: a returned boolean or a raised
exception. -/
inductive HFRes
  | ret (b : Bool)
  | exn (e : NWError)
deriving DecidableEq, Repr

/-- `NanoWrite.has_finished`, given the current `_job_running` flag, the
parsed log and the sampled finished pixel.  Returns the call outcome together
with the value of `_job_running` after the call.  `lst[-1]` on an empty list
raises `IndexError`. -/
def has_finished (job_running : Bool) (log : List LogEntry) (px : Pixel) :
    HFRes × Bool :=
  if job_running then
    let cmd_log := (get_command_log log).map (fun e => e.msg)
    match cmd_log.find? (fun m => containsSub m errMarker) with
    | some m => (.exn (.executionError m), false)
    | none =>
      match cmd_log.getLast? with
      | none => (.exn .indexError, true)
      | some last_msg =>
        if containsSub last_msg doneMarker || containsSub last_msg abortedMarker then
          (.ret true, false)
        else
          (.ret false, true)
  else
    if bar_full px then (.ret true, false)
    else
      match (log.map (fun e => e.msg)).getLast? with
      | none => (.exn .indexError, false)
      | some last_msg =>
        if reMatchDone last_msg then (.ret true, false)
        else (.ret false, false)

/-- The wrapping applied to a submitted script:
`'MessageOut ***Seperator***\n' + commands + '\nwait 0.01'`. -/
def wrapCommands (commands : Str) : Str :=
  ("MessageOut ***Seperator***\n").data ++ commands ++ ("\nwait 0.01").data

/-- The marker line embedded at the start of a wrapped script (its first
physical line). -/
def sentinelOf (script : Str) : Str :=
  script.takeWhile (fun c => c != '\n')

/-- The mutable state of a `NanoWrite` object that the modelled operations
touch: the `_job_running` flag, the cached piezo position, the text currently
pasted into the mini-GWL field, and the files inside the sandbox directory. -/
structure NWState where
  job_running : Bool
  cached_piezo_position : Option (Int × Int × Int)
  staged : Option Str
  sandbox : List (Str × Str)
deriving DecidableEq, Repr

/-- `NanoWrite.execute_mini_gwl`: raises `NotReady` when `has_finished()` is
false, otherwise pastes the wrapped commands into the text field and, when
`execute` is set, starts the job (setting `_job_running`) and optionally
invalidates the cached piezo position.  Exceptions escaping `has_finished`
propagate.  Returns the state after the call and the raised exception, if
any. -/
def execute_mini_gwl (st : NWState) (log : List LogEntry) (px : Pixel)
    (commands : Str) (execute invalidate_piezo : Bool) :
    NWState × Option NWError :=
  let hf := has_finished st.job_running log px
  match hf.1 with
  | .exn e => ({ st with job_running := hf.2 }, some e)
  | .ret false => ({ st with job_running := hf.2 }, some .notReady)
  | .ret true =>
    let st1 := { st with job_running := hf.2, staged := some (wrapCommands commands) }
    if execute then
      let st2 := { st1 with job_running := true }
      let st3 :=
        if invalidate_piezo then { st2 with cached_piezo_position := none }
        else st2
      (st3, none)
    else (st1, none)

/-- Path separator test of `ntpath` (both slashes). -/
def isSep (c : Char) : Bool := c == '/' || c == '\\'

/-- `ntpath.splitdrive`: splits a two-character drive specifier
(second character a colon) from the front of a path. -/
def splitdrive : Str → Str × Str
  | a :: b :: rest =>
    if b = ':' then ([a, ':'], rest) else ([], a :: b :: rest)
  | s => ([], s)

/-- Characters after the last path separator (the tail component of
`ntpath.split` once the drive is gone). -/
def afterLastSep (s : Str) : Str :=
  (s.reverse.takeWhile (fun c => !(isSep c))).reverse

/-- `os.path.basename` on Windows (`ntpath.basename`): drop the drive
specifier, then keep what follows the last separator. -/
def ntBasename (s : Str) : Str :=
  afterLastSep (splitdrive s).2

/-- ASCII lower-casing of one character (drive letters compare
case-insensitively in `ntpath.join`). -/
def lowerc (c : Char) : Char :=
  if 'A' ≤ c ∧ c ≤ 'Z' then Char.ofNat (c.toNat + 32) else c

/-- ASCII lower-casing of a string. -/
def lowerStr (s : Str) : Str := s.map lowerc

/-- Does the string start with a path separator. -/
def startsWithSep : Str → Bool
  | [] => false
  | c :: _ => isSep c

/-- Does the string end with a path separator. -/
def endsWithSep (s : Str) : Bool := startsWithSep s.reverse

/-- `ntpath.join` for two arguments: split both paths into drive and rest;
an absolute or different-drive second path discards the first, otherwise the
second path is appended after a `\` separator.  (The final UNC fix-up of the
source never fires here because `splitdrive` only produces drives ending in a
colon.) -/
def ntJoin (a b : Str) : Str :=
  let rd := (splitdrive a).1
  let rp := (splitdrive a).2
  let pd := (splitdrive b).1
  let pp := (splitdrive b).2
  if startsWithSep pp then
    (if !pd.isEmpty || rd.isEmpty then pd else rd) ++ pp
  else if !pd.isEmpty && !(pd == rd) && !(lowerStr pd == lowerStr rd) then
    pd ++ pp
  else
    let rd2 := if !pd.isEmpty && !(pd == rd) then pd else rd
    let rp2 := if !rp.isEmpty && !(endsWithSep rp) then rp ++ ['\\'] else rp
    rd2 ++ rp2 ++ pp

/-- A representative value of `self._tmpfolder` (the private directory made by
`tempfile.mkdtemp(suffix='nanowriteserver')`). -/
def tmpFolder : Str := ("C:\\sandbox").data

/-- The path actually opened for a logical filename:
`os.path.join(self._tmpfolder, os.path.basename(filename))`. -/
def sandboxPath (tmp name : Str) : Str :=
  ntJoin tmp (ntBasename name)

/-- Write a file: later writes to the same path shadow earlier ones. -/
def fsWrite (fs : List (Str × Str)) (p content : Str) : List (Str × Str) :=
  (p, content) :: fs

/-- First-match association-list lookup. -/
def lookupD : List (Str × Str) → Str → Option Str
  | [], _ => none
  | (k, v) :: t, key => if k = key then some v else lookupD t key

/-- Read a file's content, if present. -/
def fsRead (fs : List (Str × Str)) (p : Str) : Option Str :=
  lookupD fs p

/-- The newline translation of a Windows text-mode write (`open(path, 'w')`):
each LF byte of the written content reaches the file as CRLF. -/
def winTextEncode : Str → Str
  | [] => []
  | c :: t =>
    if c = '\n' then '\r' :: '\n' :: winTextEncode t
    else c :: winTextEncode t

/-- The sandbox write performed for each entry of `gwl_files`
(`open(os.path.join(self._tmpfolder, os.path.basename(filename)), 'w')`):
mode `'w'` is Windows text mode, so each LF of the content reaches the disk
as CRLF, while the later readback at `readback_files` uses binary mode
`'rb'` and sees the translated bytes. -/
def sandbox_write (fs : List (Str × Str)) (tmp name content : Str) :
    List (Str × Str) :=
  fsWrite fs (sandboxPath tmp name) (winTextEncode content)

/-- The sandbox read performed for each entry of `readback_files`
(`open(os.path.join(self._tmpfolder, os.path.basename(filename)), 'rb')`). -/
def sandbox_read (fs : List (Str × Str)) (tmp name : Str) : Option Str :=
  fsRead fs (sandboxPath tmp name)

/-- Split a path into segments at separators. -/
def splitSegs : Str → List Str
  | [] => [[]]
  | c :: t =>
    let r := splitSegs t
    if isSep c then [] :: r
    else
      match r with
      | s :: rest => (c :: s) :: rest
      | [] => [[c]]

/-- Resolve `.`, `..` and empty segments the way the operating system resolves
a path against the directory tree. -/
def resolveSegs (acc : List Str) : List Str → List Str
  | [] => acc
  | s :: t =>
    if s = [] ∨ s = (".").data then resolveSegs acc t
    else if s = ("..").data then resolveSegs acc.dropLast t
    else resolveSegs (acc ++ [s]) t

/-- The path `p`, once resolved, denotes something strictly inside the
directory `dir`: the resolved segments of `dir` are a proper leading piece of
those of `p`. -/
def strictlyInside (dir p : Str) : Bool :=
  let d := resolveSegs [] (splitSegs dir)
  let q := resolveSegs [] (splitSegs p)
  startsWithStr d q && !(d == q)

/-- Replace the value stored under `key` (Python `d[key] = v` on an existing
key). -/
def dictUpdate (d : List (Str × Str)) (key v : Str) : List (Str × Str) :=
  d.map (fun kv => if kv.1 = key then (key, v) else kv)

/-- The part of `NanoWrite.execute_complex_gwl_files` that the file-set claims
are about: the `assert start_name in gwl_files` guard (`none` models the
`AssertionError`), the in-place wrapping of the start file's content with the
sentinel/synchronize envelope, and the write of every (already mutated) entry
into the sandbox directory.  Returns the mutated mapping and the file system
after the writes. -/
def execute_complex_gwl_files (fs : List (Str × Str)) (tmp : Str)
    (start_name : Str) (gwl_files : List (Str × Str)) :
    Option (List (Str × Str) × List (Str × Str)) :=
  match lookupD gwl_files start_name with
  | none => none
  | some content =>
    let gwl2 := dictUpdate gwl_files start_name (wrapCommands content)
    let fs2 := gwl2.foldl (fun acc kv => sandbox_write acc tmp kv.1 kv.2) fs
    some (gwl2, fs2)

/-- Base64 alphabet value of one character. -/
def b64Index (c : Char) : Option Nat :=
  if 'A' ≤ c ∧ c ≤ 'Z' then some (c.toNat - 65)
  else if 'a' ≤ c ∧ c ≤ 'z' then some (c.toNat - 97 + 26)
  else if '0' ≤ c ∧ c ≤ '9' then some (c.toNat - 48 + 52)
  else if c = '+' then some 62
  else if c = '/' then some 63
  else none

/-- A character that `binascii_find_valid` counts as valid base64 input: a
member of the alphabet, or the pad character `=` (which the decode table maps
to 0). -/
def b64Valid (c : Char) : Bool :=
  (b64Index c).isSome || c == '='

/-- The first valid base64 character of the remaining input, as
`binascii_find_valid` looks it up past the pad character under scrutiny. -/
def b64NextValid : List Char → Option Char
  | [] => none
  | c :: t => if b64Valid c then some c else b64NextValid t

/-- The decoding loop of CPython 2.7's `binascii.a2b_base64` (what
`base64.b64decode` calls): characters above `0x7f`, CR, LF, blanks and any
character outside the alphabet are discarded; a pad character is discarded
unless at least two data characters of the current quad have been seen and —
at exactly two — the next valid character is a pad again, in which case the
input ends there; six bits are shifted in per data character and a byte is
emitted whenever eight are available.  Remaining bits at the end of input are
an `Incorrect padding` error (`none`). -/
def a2b_base64 : List Char → Nat → Nat → Nat → List Nat → Option (List Nat)
  | [], _, _, leftbits, out =>
    if leftbits = 0 then some out else none
  | c :: rest, quad_pos, leftchar, leftbits, out =>
    if 127 < c.toNat ∨ c = '\r' ∨ c = '\n' ∨ c = ' ' then
      a2b_base64 rest quad_pos leftchar leftbits out
    else if c = '=' then
      if quad_pos < 2 ∨ (quad_pos = 2 ∧ b64NextValid rest ≠ some '=') then
        a2b_base64 rest quad_pos leftchar leftbits out
      else
        some out
    else
      match b64Index c with
      | none => a2b_base64 rest quad_pos leftchar leftbits out
      | some v =>
        let quad_pos2 := (quad_pos + 1) % 4
        let leftchar2 := leftchar * 64 + v
        let leftbits2 := leftbits + 6
        if 8 ≤ leftbits2 then
          a2b_base64 rest quad_pos2 (leftchar2 % 2 ^ (leftbits2 - 8))
            (leftbits2 - 8) (out ++ [leftchar2 / 2 ^ (leftbits2 - 8) % 256])
        else
          a2b_base64 rest quad_pos2 leftchar2 leftbits2 out

/-- `base64.b64decode` on a (byte) string, the decoded bytes read back as
characters; `none` models the exception raised on incorrect padding. -/
def b64decode (s : Str) : Option Str :=
  (a2b_base64 s 0 0 0 []).map (fun bs => bs.map Char.ofNat)

/-- Outcome of `VerifyingDocXMLRPCServer.authenticate`: a boolean verdict, or
an uncaught exception (the failing `assert basic == 'Basic'`, or a
`b64decode` error). -/
inductive AuthResult
  | accept
  | reject
  | crash
deriving DecidableEq, Repr

/-- `VerifyingDocXMLRPCServer.authenticate`, over the configured
username/secret mapping and the request's `Authorization` header (absent or
its text). -/
def authenticate (users : List (Str × Str)) (auth_header : Option Str) :
    AuthResult :=
  if users.isEmpty then .accept
  else
    match auth_header with
    | none => .reject
    | some v =>
      let parts := pyPartition ' ' v
      if parts.1 ≠ ("Basic").data then .crash
      else
        match b64decode parts.2 with
        | none => .crash
        | some decoded =>
          let up := pyPartition ':' decoded
          match lookupD users up.1 with
          | some pw => if pw = up.2 then .accept else .reject
          | none => .reject

/-- What becomes of a request that reached `parse_request` with the base
HTTP parse succeeding. -/
inductive RequestOutcome
  | dispatched
  | rejected401
  | connectionError
deriving DecidableEq, Repr

/-- `VerifyingRequestHandler.parse_request` after a successful base parse:
an accepted request is dispatched, a rejected one is answered with
`send_error(401)`, and an exception escaping `authenticate` aborts the
request without any 401 response. -/
def parse_request (users : List (Str × Str)) (auth_header : Option Str) :
    RequestOutcome :=
  match authenticate users auth_header with
  | .accept => .dispatched
  | .reject => .rejected401
  | .crash => .connectionError

/-! ## Helper lemmas -/

theorem getLast?_some_mem {α : Type} {l : List α} {a : α}
    (h : l.getLast? = some a) : a ∈ l := by
  induction l with
  | nil => simp at h
  | cons x t ih =>
    cases t with
    | nil => simp [List.getLast?] at h; simp [h]
    | cons y u =>
      rw [List.getLast?_cons_cons] at h
      exact List.mem_cons_of_mem _ (ih h)

theorem ne_nil_getLast?_some {α : Type} {l : List α} (h : l ≠ []) :
    ∃ a, l.getLast? = some a :=
  ⟨l.getLast h, List.getLast?_eq_getLast_of_ne_nil h⟩

theorem takeWhile_all {p : Char → Bool} {l : Str}
    (h : ∀ c ∈ l, p c = true) : l.takeWhile p = l := by
  induction l with
  | nil => rfl
  | cons c t ih =>
    rw [List.takeWhile_cons, h c (List.mem_cons_self c t),
      ih (fun x hx => h x (List.mem_cons_of_mem c hx))]
    simp

theorem takeWhile_append_stop (p : Char → Bool) (l1 : Str)
    (h : ∀ c ∈ l1, p c = true) (c0 : Char) (hc : p c0 = false) (l2 : Str) :
    (l1 ++ c0 :: l2).takeWhile p = l1 := by
  induction l1 with
  | nil => simp [List.takeWhile_cons, hc]
  | cons a t ih =>
    rw [List.cons_append, List.takeWhile_cons, h a (List.mem_cons_self a t),
      ih (fun x hx => h x (List.mem_cons_of_mem a hx))]
    simp

theorem startsWithStr_append {α : Type} [BEq α] [LawfulBEq α]
    (l t : List α) : startsWithStr l (l ++ t) = true := by
  induction l with
  | nil => rfl
  | cons a l ih => simp [startsWithStr, ih]

theorem gcl_aux_all_neg {l : List LogEntry}
    (h : ∀ e ∈ l, containsSub e.msg seperator = false) :
    get_command_log_aux l = l := by
  induction l with
  | nil => rfl
  | cons e t ih =>
    rw [get_command_log_aux, if_neg, ih (fun x hx => h x (List.mem_cons_of_mem e hx))]
    simp [h e (List.mem_cons_self e t)]

theorem gcl_aux_found {l1 : List LogEntry} (e : LogEntry) (l2 : List LogEntry)
    (h1 : ∀ x ∈ l1, containsSub x.msg seperator = false)
    (he : containsSub e.msg seperator = true) :
    get_command_log_aux (l1 ++ e :: l2) = l1 ++ [e] := by
  induction l1 with
  | nil => simp [get_command_log_aux, he]
  | cons a t ih =>
    rw [List.cons_append, get_command_log_aux, if_neg, List.cons_append,
      ih (fun x hx => h1 x (List.mem_cons_of_mem a hx))]
    simp [h1 a (List.mem_cons_self a t)]

theorem gcl_ne_nil {log : List LogEntry} (h : log ≠ []) :
    get_command_log log ≠ [] := by
  unfold get_command_log
  cases hrev : log.reverse with
  | nil => exact absurd (by simpa using hrev) h
  | cons e t =>
    rw [get_command_log_aux]
    split <;> simp

/-! ## C1: an error marker anywhere in the sentinel segment raises
`ExecutionError` with that entry's text, before any completion check -/

/-- C1: in the Running state, if any entry of the segment captured since the
sentinel contains the error marker `!!!`, `has_finished` raises
`ExecutionError` carrying such an entry's text instead of returning a
boolean, regardless of any later entry (in particular one matching the
completion marker). -/
theorem has_finished_error_priority (log : List LogEntry) (px : Pixel)
    (h : ∃ e ∈ get_command_log log, containsSub e.msg errMarker = true) :
    ∃ m, (has_finished true log px).1 = .exn (.executionError m) ∧
      containsSub m errMarker = true ∧
      m ∈ (get_command_log log).map (fun e => e.msg) := by
  obtain ⟨e, he, hem⟩ := h
  have hmem : e.msg ∈ (get_command_log log).map (fun x => x.msg) :=
    List.mem_map_of_mem _ he
  cases hfind : ((get_command_log log).map (fun x => x.msg)).find?
      (fun m => containsSub m errMarker) with
  | none =>
    have := List.find?_eq_none.mp hfind _ hmem
    simp [hem] at this
  | some m =>
    have hp := List.find?_some hfind
    simp only [] at hp
    have hm : m ∈ (get_command_log log).map (fun x => x.msg) :=
      List.mem_of_find?_eq_some hfind
    refine ⟨m, ?_, hp, hm⟩
    unfold has_finished
    rw [if_pos rfl]
    simp only [hfind]

/-- Witness for C1 at a concrete segment whose error entry is followed by a
completion entry. -/
theorem has_finished_error_priority_witness :
    ∃ m, (has_finished true
        [⟨0, ("oops !!! fail").data⟩, ⟨1, ("writing done.").data⟩] ⟨0, 0, 0⟩).1 =
      .exn (.executionError m) ∧
      containsSub m errMarker = true ∧
      m ∈ (get_command_log
        [⟨0, ("oops !!! fail").data⟩, ⟨1, ("writing done.").data⟩]).map
          (fun e => e.msg) :=
  has_finished_error_priority _ _ (by decide)

/-! ## C3: a segment ending in the completion marker with no error marker
returns true and resets the running flag -/

/-- C3: in the Running state, when no message of the sentinel segment contains
the error marker and the segment's last message contains the completion marker
`done.`, `has_finished` returns `true` and resets `_job_running` to `false`
(the Idle state), so that a subsequent submission passes the readiness
check. -/
theorem has_finished_done_resets_idle (log : List LogEntry) (px : Pixel)
    (m_last : Str)
    (hnoerr : ∀ m ∈ (get_command_log log).map (fun e => e.msg),
      containsSub m errMarker = false)
    (hlast : ((get_command_log log).map (fun e => e.msg)).getLast? = some m_last)
    (hdone : containsSub m_last doneMarker = true) :
    has_finished true log px = (.ret true, false) := by
  have hfind : ((get_command_log log).map (fun e => e.msg)).find?
      (fun m => containsSub m errMarker) = none :=
    List.find?_eq_none.mpr (fun x hx => by simp [hnoerr x hx])
  unfold has_finished
  rw [if_pos rfl]
  simp [hfind, hlast, hdone]

/-- Witness for C3 at a concrete completed segment. -/
theorem has_finished_done_resets_idle_witness :
    has_finished true
      [⟨0, ("MessageOut ***Seperator***").data⟩, ⟨1, ("writing done.").data⟩]
      ⟨0, 0, 0⟩ = (.ret true, false) :=
  has_finished_done_resets_idle _ _ (("writing done.").data)
    (by decide) (by decide) (by decide)

/-! ## C5: behaviour on an empty log / empty sentinel segment -/

/-- Counterexample to C5: on an empty log, `has_finished` in the Running state
does not return `false` — the subscript `cmd_log[-1]` raises an `IndexError`
(no boolean is returned at all). -/
theorem has_finished_empty_log_raises :
    has_finished true [] ⟨0, 0, 0⟩ = (.exn .indexError, true) ∧
    ∀ b : Bool, (has_finished true [] ⟨0, 0, 0⟩).1 ≠ .ret b := by decide

/-- C5 as amended: on an empty log, `has_finished` raises an `IndexError`
instead of returning `false` (in the Running state, and likewise in the Idle
state when the pixel is not full blue); for a non-empty log the sentinel
segment is never empty (it retains at least the sentinel entry), and when no
message of the segment carries an error, completion or abort marker,
`has_finished` returns `false` without raising. -/
theorem has_finished_empty_and_segment_behavior :
    (∀ px, has_finished true [] px = (.exn .indexError, true)) ∧
    (∀ px, bar_full px = false → has_finished false [] px = (.exn .indexError, false)) ∧
    (∀ log : List LogEntry, log ≠ [] → get_command_log log ≠ []) ∧
    (∀ (log : List LogEntry) (px : Pixel), log ≠ [] →
       (∀ m ∈ (get_command_log log).map (fun e => e.msg),
          containsSub m errMarker = false ∧ containsSub m doneMarker = false ∧
          containsSub m abortedMarker = false) →
       has_finished true log px = (.ret false, true)) := by
  refine ⟨fun px => rfl, fun px hpx => ?_, fun log h => gcl_ne_nil h, ?_⟩
  · unfold has_finished
    simp [hpx]
  · intro log px hne hall
    have hm : (get_command_log log).map (fun e => e.msg) ≠ [] := by
      simpa using gcl_ne_nil hne
    obtain ⟨m_last, hlast⟩ := ne_nil_getLast?_some hm
    obtain ⟨hel, hdl, hal⟩ := hall m_last (getLast?_some_mem hlast)
    have hfind : ((get_command_log log).map (fun e => e.msg)).find?
        (fun m => containsSub m errMarker) = none :=
      List.find?_eq_none.mpr (fun x hx => by simp [(hall x hx).1])
    unfold has_finished
    rw [if_pos rfl]
    simp [hfind, hlast, hdl, hal]

/-- Witness for the amended C5. -/
theorem has_finished_empty_and_segment_behavior_witness :
    has_finished true [] ⟨10, 10, 10⟩ = (.exn .indexError, true) ∧
    has_finished false [] ⟨10, 10, 10⟩ = (.exn .indexError, false) ∧
    get_command_log [⟨0, ("x").data⟩] ≠ [] ∧
    has_finished true [⟨0, ("MessageOut ***Seperator***").data⟩] ⟨10, 10, 10⟩ =
      (.ret false, true) :=
  ⟨has_finished_empty_and_segment_behavior.1 _,
   has_finished_empty_and_segment_behavior.2.1 _ (by decide),
   has_finished_empty_and_segment_behavior.2.2.1 _ (by decide),
   has_finished_empty_and_segment_behavior.2.2.2 _ _ (by decide) (by decide)⟩

/-! ## C2: the Idle-state heuristics of `has_finished` -/

/-- C2: when no job is known to be running, `has_finished` returns `true` as
soon as the sampled finished pixel is full blue (blue above 240, red and
green below 100), whatever the log holds; with a non-blue pixel it returns
`true` exactly when the raw log's last entry matches the completion pattern,
and returns `false` without raising otherwise. -/
theorem has_finished_idle_heuristics (log : List LogEntry) (px : Pixel) :
    (bar_full px = true → has_finished false log px = (.ret true, false)) ∧
    (∀ m_last, bar_full px = false →
       (log.map (fun e => e.msg)).getLast? = some m_last →
       reMatchDone m_last = true →
       has_finished false log px = (.ret true, false)) ∧
    (∀ m_last, bar_full px = false →
       (log.map (fun e => e.msg)).getLast? = some m_last →
       reMatchDone m_last = false →
       has_finished false log px = (.ret false, false)) := by
  refine ⟨fun hb => by unfold has_finished; simp [hb], ?_, ?_⟩ <;>
    · intro m_last hb hlast hre
      unfold has_finished
      rw [List.getLast?_map] at hlast
      simp [hb, hlast, hre]

/-- Witness for C2: a blue pixel alone, a completion entry alone, and neither
signal, each at a concrete input. -/
theorem has_finished_idle_heuristics_witness :
    has_finished false [] ⟨0, 0, 255⟩ = (.ret true, false) ∧
    has_finished false [⟨0, ("structure done. ok").data⟩] ⟨0, 0, 0⟩ =
      (.ret true, false) ∧
    has_finished false [⟨0, ("still writing").data⟩] ⟨0, 0, 0⟩ =
      (.ret false, false) :=
  ⟨(has_finished_idle_heuristics [] ⟨0, 0, 255⟩).1 (by decide),
   (has_finished_idle_heuristics _ _).2.1 (("structure done. ok").data)
     (by decide) (by decide) (by decide),
   (has_finished_idle_heuristics _ _).2.2 (("still writing").data)
     (by decide) (by decide) (by decide)⟩

/-! ## C4: submitting while a job is running raises `NotReady` with no side
effect -/

theorem hf_false_keeps_running (log : List LogEntry) (px : Pixel)
    (h : (has_finished true log px).1 = .ret false) :
    has_finished true log px = (.ret false, true) := by
  unfold has_finished at h ⊢
  rw [if_pos rfl] at h ⊢
  simp only [] at h ⊢
  split at h
  · simp at h
  · split at h
    · simp at h
    · split at h
      · simp at h
      · simp_all

/-- C4: while the job state is Running (`has_finished()` returns `false`),
`execute_mini_gwl` raises `NotReady` and has no side effect: the returned
state — running flag, cached piezo position, staged script text and sandbox
contents — is exactly the input state, and no script is staged. -/
theorem execute_mini_gwl_running_not_ready (st : NWState) (log : List LogEntry)
    (px : Pixel) (commands : Str) (execute invalidate_piezo : Bool)
    (hrun : st.job_running = true)
    (hf : (has_finished st.job_running log px).1 = .ret false) :
    execute_mini_gwl st log px commands execute invalidate_piezo =
      (st, some .notReady) := by
  rw [hrun] at hf
  have h2 := hf_false_keeps_running log px hf
  unfold execute_mini_gwl
  rw [hrun, h2]
  simp only []
  cases st with
  | mk jr cp stg sb =>
    simp at hrun
    simp [hrun]

/-- Witness for C4: a running job whose segment shows no marker yet. -/
theorem execute_mini_gwl_running_not_ready_witness :
    execute_mini_gwl ⟨true, some (1, 2, 3), none, []⟩
      [⟨0, ("MessageOut ***Seperator***").data⟩] ⟨0, 0, 0⟩
      (("MessageOut hi").data) true true =
      (⟨true, some (1, 2, 3), none, []⟩, some .notReady) :=
  execute_mini_gwl_running_not_ready _ _ _ _ _ _ (by decide) (by decide)

/-! ## C6: what `get_command_log` actually returns -/

/-- Counterexample to C6: on a log whose single entry contains the sentinel,
the entries strictly after the last sentinel occurrence form the empty
sequence, but `get_command_log` keeps the sentinel entry itself. -/
theorem get_command_log_includes_sentinel_entry :
    get_command_log [⟨0, ("MessageOut ***Seperator***").data⟩] =
      [⟨0, ("MessageOut ***Seperator***").data⟩] ∧
    readSinceSentinel_spec [⟨0, ("MessageOut ***Seperator***").data⟩] = [] ∧
    get_command_log [⟨0, ("MessageOut ***Seperator***").data⟩] ≠
      readSinceSentinel_spec [⟨0, ("MessageOut ***Seperator***").data⟩] := by
  decide

/-- C6 as amended: `get_command_log` returns the suffix of the log beginning
at (and including) the last entry whose message contains the sentinel, in
order; when no entry contains the sentinel it returns the full sequence. -/
theorem get_command_log_characterization :
    (∀ log : List LogEntry,
       (∀ e ∈ log, containsSub e.msg seperator = false) →
       get_command_log log = log) ∧
    (∀ (pre post : List LogEntry) (e : LogEntry),
       containsSub e.msg seperator = true →
       (∀ x ∈ post, containsSub x.msg seperator = false) →
       get_command_log (pre ++ e :: post) = e :: post) := by
  constructor
  · intro log h
    unfold get_command_log
    rw [gcl_aux_all_neg (fun e he => h e (List.mem_reverse.mp he)), List.reverse_reverse]
  · intro pre post e he hpost
    unfold get_command_log
    rw [List.reverse_append, List.reverse_cons, List.append_assoc,
      List.singleton_append,
      gcl_aux_found e pre.reverse (fun x hx => hpost x (List.mem_reverse.mp hx)) he,
      List.reverse_append, List.reverse_reverse, List.reverse_singleton,
      List.singleton_append]

/-- Witness for the amended C6: a log without the sentinel and one with it. -/
theorem get_command_log_characterization_witness :
    get_command_log [⟨0, ("a").data⟩, ⟨1, ("b").data⟩] =
      [⟨0, ("a").data⟩, ⟨1, ("b").data⟩] ∧
    get_command_log
      [⟨0, ("a").data⟩, ⟨1, ("MessageOut ***Seperator***").data⟩, ⟨2, ("b").data⟩] =
      [⟨1, ("MessageOut ***Seperator***").data⟩, ⟨2, ("b").data⟩] :=
  ⟨get_command_log_characterization.1 _ (by decide),
   get_command_log_characterization.2 [⟨0, ("a").data⟩] [⟨2, ("b").data⟩]
     ⟨1, ("MessageOut ***Seperator***").data⟩ (by decide) (by decide)⟩

/-! ## C7: the sentinel marker across submissions -/

/-- Counterexample to C7: two distinct submissions receive the same embedded
sentinel marker — it is the fixed text `MessageOut ***Seperator***`, not a
fresh value per submission. -/
theorem sentinel_reused_across_submissions :
    ("MessageOut hello").data ≠ ("MessageOut world").data ∧
    sentinelOf (wrapCommands (("MessageOut hello").data)) =
      sentinelOf (wrapCommands (("MessageOut world").data)) := by
  decide

/-- C7 as amended: the sentinel marker embedded at the start of every
submitted script is one and the same constant string for all submissions. -/
theorem sentinel_constant_for_all_submissions (commands : Str) :
    sentinelOf (wrapCommands commands) = ("MessageOut ***Seperator***").data := by
  unfold sentinelOf wrapCommands
  have hsplit : ("MessageOut ***Seperator***\n").data =
      ("MessageOut ***Seperator***").data ++ ['\n'] := by decide
  rw [hsplit]
  have harr : ((("MessageOut ***Seperator***").data ++ ['\n']) ++ commands) ++
        ("\nwait 0.01").data =
      ("MessageOut ***Seperator***").data ++
        '\n' :: (commands ++ ("\nwait 0.01").data) := by
    simp
  rw [harr]
  exact takeWhile_append_stop _ _ (by decide) _ (by decide) _

/-! ## C8: request authentication -/

/-- Counterexample to C8: with a non-empty credential mapping, a request whose
`Authorization` scheme is not `Basic` does not receive a 401 response — the
`assert basic == 'Basic'` statement raises, aborting the request without any
response (it is not dispatched either). -/
theorem non_basic_scheme_crashes_not_401 :
    parse_request [(("user").data, ("password").data)]
      (some (("Bearer Zm9v").data)) = .connectionError ∧
    RequestOutcome.connectionError ≠ .rejected401 ∧
    RequestOutcome.connectionError ≠ .dispatched := by
  decide

/-- C8 as amended: an empty mapping accepts every request without an
authentication check; with a non-empty mapping, a missing `Authorization`
header or a well-formed `Basic` credential that does not match a configured
username/secret pair receives a 401 and is not dispatched, a non-`Basic`
scheme aborts the request via a failed assertion (no 401), and exactly the
requests carrying a configured username/secret pair are dispatched. -/
theorem authentication_characterization :
    (∀ auth, parse_request [] auth = .dispatched) ∧
    (∀ users : List (Str × Str), users ≠ [] →
       parse_request users none = .rejected401) ∧
    (∀ (users : List (Str × Str)) (v : Str), users ≠ [] →
       (pyPartition ' ' v).1 ≠ ("Basic").data →
       parse_request users (some v) = .connectionError) ∧
    (∀ (users : List (Str × Str)) (v dec : Str), users ≠ [] →
       (pyPartition ' ' v).1 = ("Basic").data →
       b64decode (pyPartition ' ' v).2 = some dec →
       ((lookupD users (pyPartition ':' dec).1 = some (pyPartition ':' dec).2 →
           parse_request users (some v) = .dispatched) ∧
        (lookupD users (pyPartition ':' dec).1 ≠ some (pyPartition ':' dec).2 →
           parse_request users (some v) = .rejected401))) := by
  have hne : ∀ users : List (Str × Str), users ≠ [] → users.isEmpty = false := by
    intro users h
    cases users with
    | nil => exact absurd rfl h
    | cons a t => rfl
  refine ⟨fun auth => by unfold parse_request authenticate; cases auth <;> rfl,
    fun users h => by unfold parse_request authenticate; rw [hne users h]; rfl,
    fun users v h hb => ?_, fun users v dec h hb hdec => ?_⟩
  · unfold parse_request authenticate
    rw [hne users h]
    simp [hb]
  · constructor
    · intro hfound
      unfold parse_request authenticate
      rw [hne users h]
      simp [hb, hdec, hfound]
    · intro hnot
      unfold parse_request authenticate
      rw [hne users h]
      cases hl : lookupD users (pyPartition ':' dec).1 with
      | none => simp [hb, hdec, hl]
      | some pw =>
        have hpw : pw ≠ (pyPartition ':' dec).2 := fun hEq => hnot (by rw [hl, hEq])
        simp [hb, hdec, hl, hpw]

/-- Witness for the amended C8 at concrete requests (the credential pair
`user`/`password`, whose base64 encoding is `dXNlcjpwYXNzd29yZA==`; the
variant with an embedded blank is decodable too, since `b64decode` discards
characters outside the alphabet before the padding check). -/
theorem authentication_characterization_witness :
    parse_request [] none = .dispatched ∧
    parse_request [(("user").data, ("password").data)] none = .rejected401 ∧
    parse_request [(("user").data, ("password").data)]
      (some (("Bearer Zm9vYmFy").data)) = .connectionError ∧
    parse_request [(("user").data, ("password").data)]
      (some (("Basic dXNlcjpwYXNzd29yZA==").data)) = .dispatched ∧
    parse_request [(("user").data, ("password").data)]
      (some (("Basic dXNlcjpw YXNzd29yZA==").data)) = .dispatched ∧
    parse_request [(("user").data, ("password").data)]
      (some (("Basic dXNlcjpwYXNz").data)) = .rejected401 :=
  ⟨authentication_characterization.1 none,
   authentication_characterization.2.1 _ (by decide),
   authentication_characterization.2.2.1 _ _ (by decide) (by decide),
   (authentication_characterization.2.2.2 _ _ (("user:password").data)
     (by decide) (by decide) (by decide)).1 (by decide),
   (authentication_characterization.2.2.2 _ _ (("user:password").data)
     (by decide) (by decide) (by decide)).1 (by decide),
   (authentication_characterization.2.2.2 _ _ (("user:pass").data)
     (by decide) (by decide) (by decide)).2 (by decide)⟩

/-! ## C9: sandbox write/read round-trip and path containment -/

theorem afterLastSep_no_sep (s : Str) : ∀ c ∈ afterLastSep s, isSep c = false := by
  intro c hc
  unfold afterLastSep at hc
  have := List.mem_takeWhile_imp (List.mem_reverse.mp hc)
  simpa using this

theorem ntBasename_no_sep (s : Str) : ∀ c ∈ ntBasename s, isSep c = false :=
  afterLastSep_no_sep _

theorem splitdrive_fst_nil {s : Str} (h : (splitdrive s).1 = []) :
    (splitdrive s).2 = s := by
  match s with
  | [] => rfl
  | [a] => rfl
  | a :: b :: rest =>
    simp only [splitdrive] at h ⊢
    by_cases hb : b = ':'
    · rw [if_pos hb] at h
      simp at h
    · rw [if_neg hb]

theorem ntJoin_tmp_basename (b : Str) (hb : ∀ c ∈ b, isSep c = false)
    (hd : (splitdrive b).1 = []) :
    ntJoin tmpFolder b = tmpFolder ++ '\\' :: b := by
  have h2 : (splitdrive b).2 = b := splitdrive_fst_nil hd
  have htmp : splitdrive tmpFolder = (("C:").data, ("\\sandbox").data) := by decide
  have hsw : startsWithSep b = false := by
    cases b with
    | nil => rfl
    | cons c t =>
      have := hb c (List.mem_cons_self c t)
      simpa [startsWithSep] using this
  unfold ntJoin
  rw [htmp]
  simp only [hd, h2, hsw]
  simp [tmpFolder, endsWithSep, startsWithSep, isSep]

theorem splitSegs_no_sep {b : Str} (hb : ∀ c ∈ b, isSep c = false) :
    splitSegs b = [b] := by
  induction b with
  | nil => rfl
  | cons c t ih =>
    have hr := ih (fun x hx => hb x (List.mem_cons_of_mem c hx))
    simp only [splitSegs, hr, hb c (List.mem_cons_self c t)]
    simp

theorem splitSegs_ne_nil (s : Str) : splitSegs s ≠ [] := by
  cases s with
  | nil => simp [splitSegs]
  | cons c t =>
    simp only [splitSegs]
    split
    · simp
    · split <;> simp

theorem splitSegs_append (a b : Str) (hb : ∀ c ∈ b, isSep c = false) :
    splitSegs (a ++ '\\' :: b) = splitSegs a ++ [b] := by
  induction a with
  | nil => simp [splitSegs, splitSegs_no_sep hb, isSep]
  | cons c t ih =>
    simp only [List.cons_append, splitSegs, ih]
    cases hc : isSep c with
    | true => simp [hc, ih]
    | false =>
      simp only [Bool.false_eq_true, if_false, List.append_eq]
      rw [ih]
      cases hs : splitSegs t with
      | nil => exact absurd hs (splitSegs_ne_nil t)
      | cons s rest => simp

theorem splitSegs_tmp_app (b : Str) (hb : ∀ c ∈ b, isSep c = false) :
    splitSegs (tmpFolder ++ '\\' :: b) =
      [("C:").data, ("sandbox").data, b] := by
  rw [splitSegs_append _ _ hb,
    show splitSegs tmpFolder = [("C:").data, ("sandbox").data] from by decide]
  rfl

theorem resolveSegs_push (acc : List Str) (s : Str) (t : List Str)
    (h1 : s ≠ []) (h2 : s ≠ (".").data) (h3 : s ≠ ("..").data) :
    resolveSegs acc (s :: t) = resolveSegs (acc ++ [s]) t := by
  rw [resolveSegs, if_neg (by simp [h1, h2]), if_neg h3]

theorem beq_false_of_length_lt {α : Type} [BEq α] [LawfulBEq α]
    {l t : List α} (h : l.length < t.length) : (l == t) = false := by
  have hne : l ≠ t := fun hEq => by simp [hEq] at h
  exact beq_eq_false_iff_ne.mpr hne

/-- Counterexample to C9: the logical filename `..` survives
`os.path.basename` unchanged, so the composed path `C:\sandbox\..` resolves
to the parent of the sandbox directory — not strictly inside it. -/
theorem dotdot_name_escapes_sandbox_dir :
    ntBasename (("..").data) = ("..").data ∧
    sandboxPath tmpFolder (("..").data) = ("C:\\sandbox\\..").data ∧
    strictlyInside tmpFolder (sandboxPath tmpFolder (("..").data)) = false ∧
    resolveSegs [] (splitSegs (sandboxPath tmpFolder (("..").data))) =
      [("C:").data] := by
  decide

theorem winTextEncode_no_lf {content : Str} (h : '\n' ∉ content) :
    winTextEncode content = content := by
  induction content with
  | nil => rfl
  | cons c t ih =>
    have hc : c ≠ '\n' := fun hEq => h (by rw [← hEq]; exact List.mem_cons_self c t)
    rw [winTextEncode, if_neg hc, ih (fun hm => h (List.mem_cons_of_mem c hm))]

theorem winTextEncode_length (l : Str) :
    l.length ≤ (winTextEncode l).length := by
  induction l with
  | nil => simp [winTextEncode]
  | cons c t ih =>
    by_cases hc : c = '\n'
    · rw [winTextEncode, if_pos hc]
      simp only [List.length_cons]
      omega
    · rw [winTextEncode, if_neg hc]
      simp only [List.length_cons]
      omega

theorem winTextEncode_longer {l : Str} (h : '\n' ∈ l) :
    l.length < (winTextEncode l).length := by
  induction l with
  | nil => simp at h
  | cons c t ih =>
    by_cases hc : c = '\n'
    · rw [winTextEncode, if_pos hc]
      have := winTextEncode_length t
      simp only [List.length_cons]
      omega
    · rw [winTextEncode, if_neg hc]
      have ht : '\n' ∈ t := by
        rcases List.mem_cons.mp h with h1 | h2
        · exact absurd h1.symm hc
        · exact h2
      have := ih ht
      simp only [List.length_cons]
      omega

theorem winTextEncode_with_lf {content : Str} (h : '\n' ∈ content) :
    winTextEncode content ≠ content := by
  intro hEq
  have := winTextEncode_longer h
  rw [hEq] at this
  omega

theorem splitdrive_fst_ne {s : Str} (h : (splitdrive s).1 ≠ []) :
    ∃ a rest, s = a :: ':' :: rest ∧ splitdrive s = ([a, ':'], rest) := by
  match s with
  | [] => exact absurd rfl h
  | [a] => exact absurd rfl h
  | a :: b :: rest =>
    by_cases hb : b = ':'
    · subst hb
      exact ⟨a, rest, rfl, by simp [splitdrive]⟩
    · refine absurd ?_ h
      simp [splitdrive, hb]

theorem ntJoin_drive_escape (b : Str) (a : Char) (rest : Str)
    (hshape : b = a :: ':' :: rest)
    (hb : ∀ c ∈ b, isSep c = false)
    (ha : lowerc a ≠ 'c') :
    ntJoin tmpFolder b = b := by
  have hsd : splitdrive b = ([a, ':'], rest) := by
    rw [hshape]
    simp [splitdrive]
  have hsw : startsWithSep rest = false := by
    cases rest with
    | nil => rfl
    | cons c t =>
      have : isSep c = false := hb c (by rw [hshape]; simp)
      simpa [startsWithSep] using this
  have hCl : lowerStr (("C:").data) = ['c', ':'] := by decide
  have hC : (("C:").data : Str) = ['C', ':'] := by decide
  have hlow : (lowerStr [a, ':'] == lowerStr (("C:").data)) = false := by
    refine beq_eq_false_iff_ne.mpr ?_
    intro hEq
    rw [hCl] at hEq
    have : lowerc a = 'c' := by
      have := congrArg (fun l : Str => l.head?) hEq
      simpa [lowerStr] using this
    exact ha this
  have hne : (([a, ':'] : Str) == ("C:").data) = false := by
    refine beq_eq_false_iff_ne.mpr ?_
    intro hEq
    rw [hC] at hEq
    have haC : a = 'C' := by
      have := congrArg (fun l : Str => l.head?) hEq
      simpa using this
    rw [haC] at ha
    exact ha (by decide)
  unfold ntJoin
  rw [show splitdrive tmpFolder = (("C:").data, ("\\sandbox").data) from by decide,
    hsd]
  simp only [hsw, hlow, hne]
  rw [hshape]
  simp

theorem strictlyInside_drive_false (b : Str) (a : Char) (rest : Str)
    (hshape : b = a :: ':' :: rest)
    (hb : ∀ c ∈ b, isSep c = false) :
    strictlyInside tmpFolder b = false := by
  have hsegs : splitSegs b = [b] := splitSegs_no_sep hb
  have hdot : ((".").data : Str) = ['.'] := by decide
  have hdd : (("..").data : Str) = ['.', '.'] := by decide
  have h1 : ¬ (b = [] ∨ b = (".").data) := by
    rw [hshape, hdot]
    rintro (h | h) <;> simp at h
  have h3 : b ≠ ("..").data := by
    rw [hshape, hdd]
    intro hEq
    have h2 := congrArg (fun l : Str => l.get? 1) hEq
    simp at h2
  unfold strictlyInside
  rw [hsegs,
    show resolveSegs [] (splitSegs tmpFolder) =
      [("C:").data, ("sandbox").data] from by decide,
    resolveSegs, if_neg h1, if_neg h3, resolveSegs]
  simp [startsWithStr]

/-- C9 as amended: sandbox write followed by read of the same logical name
returns the written content with each LF translated to CRLF (the write uses
Windows text mode `'w'`, the readback binary mode `'rb'`), hence unchanged
exactly when the content contains no newline; the path used is the sandbox
directory joined with `os.path.basename(name)`, whose result contains no
separator, and it resolves strictly inside the sandbox directory whenever
that basename carries no drive prefix and is none of the degenerate
components `""`, `.` and `..` (names such as `../../x` included); a basename
with a foreign drive prefix, such as that of `a\D:x`, makes `ntpath.join`
discard the sandbox directory altogether, and the bare name `..` resolves to
the sandbox's parent. -/
theorem sandbox_roundtrip_and_containment :
    (∀ (fs : List (Str × Str)) (name content : Str),
       sandbox_read (sandbox_write fs tmpFolder name content) tmpFolder name =
         some (winTextEncode content)) ∧
    (∀ content : Str, '\n' ∉ content → winTextEncode content = content) ∧
    (∀ content : Str, '\n' ∈ content → winTextEncode content ≠ content) ∧
    (∀ name : Str, (splitdrive (ntBasename name)).1 = [] →
       sandboxPath tmpFolder name = tmpFolder ++ '\\' :: ntBasename name ∧
       ∀ c ∈ ntBasename name, isSep c = false) ∧
    (∀ name : Str, (splitdrive (ntBasename name)).1 = [] →
       ntBasename name ≠ [] → ntBasename name ≠ (".").data →
       ntBasename name ≠ ("..").data →
       strictlyInside tmpFolder (sandboxPath tmpFolder name) = true) ∧
    (∀ (name : Str) (a : Char) (rest : Str),
       ntBasename name = a :: ':' :: rest → lowerc a ≠ 'c' →
       sandboxPath tmpFolder name = ntBasename name ∧
       strictlyInside tmpFolder (sandboxPath tmpFolder name) = false) := by
  have hpath : ∀ name : Str, (splitdrive (ntBasename name)).1 = [] →
      sandboxPath tmpFolder name = tmpFolder ++ '\\' :: ntBasename name :=
    fun name hd => ntJoin_tmp_basename _ (ntBasename_no_sep name) hd
  refine ⟨fun fs name content => ?_,
    fun content h => winTextEncode_no_lf h,
    fun content h => winTextEncode_with_lf h,
    fun name hd => ⟨hpath name hd, ntBasename_no_sep name⟩,
    fun name hd h1 h2 h3 => ?_,
    fun name a rest hshape ha => ?_⟩
  · simp [sandbox_read, sandbox_write, fsRead, fsWrite, lookupD]
  · rw [strictlyInside, hpath name hd,
      splitSegs_tmp_app _ (ntBasename_no_sep name),
      show resolveSegs [] (splitSegs tmpFolder) =
        [("C:").data, ("sandbox").data] from by decide,
      resolveSegs_push _ _ _ (by decide) (by decide) (by decide),
      resolveSegs_push _ _ _ (by decide) (by decide) (by decide),
      resolveSegs_push _ _ _ h1 h2 h3]
    simp only [List.nil_append, List.append_assoc, List.singleton_append]
    rw [resolveSegs]
    have hpre : startsWithStr [("C:").data, ("sandbox").data]
        ([("C:").data, ("sandbox").data] ++ [ntBasename name]) = true :=
      startsWithStr_append _ _
    have hbeq : (([("C:").data, ("sandbox").data] : List Str) ==
        [("C:").data, ("sandbox").data] ++ [ntBasename name]) = false :=
      beq_false_of_length_lt (by simp)
    simp only [List.cons_append, List.nil_append] at hpre hbeq
    simp [hpre, hbeq]
  · have hb := ntBasename_no_sep name
    have hjoin : sandboxPath tmpFolder name = ntBasename name := by
      unfold sandboxPath
      exact ntJoin_drive_escape (ntBasename name) a rest hshape hb ha
    refine ⟨hjoin, ?_⟩
    rw [hjoin]
    exact strictlyInside_drive_false _ a rest hshape hb

/-- Witness for the amended C9: the traversal name `../../x` with
newline-free and newline-bearing contents, and the drive-carrying name
`a\D:x` whose composed path leaves the sandbox. -/
theorem sandbox_roundtrip_and_containment_witness :
    sandbox_read
      (sandbox_write [] tmpFolder (("../../x").data) (("CapturePhoto img").data))
      tmpFolder (("../../x").data) =
      some (winTextEncode (("CapturePhoto img").data)) ∧
    winTextEncode (("CapturePhoto img").data) = ("CapturePhoto img").data ∧
    winTextEncode (("line one\nline two").data) ≠ ("line one\nline two").data ∧
    sandboxPath tmpFolder (("../../x").data) =
      tmpFolder ++ '\\' :: ntBasename (("../../x").data) ∧
    strictlyInside tmpFolder (sandboxPath tmpFolder (("../../x").data)) = true ∧
    sandboxPath tmpFolder (("a\\D:x").data) = ("D:x").data ∧
    strictlyInside tmpFolder (sandboxPath tmpFolder (("a\\D:x").data)) = false := by
  have h6 := sandbox_roundtrip_and_containment.2.2.2.2.2 (("a\\D:x").data) 'D'
    (("x").data) (by decide) (by decide)
  refine ⟨sandbox_roundtrip_and_containment.1 [] _ _,
    sandbox_roundtrip_and_containment.2.1 _ (by decide),
    sandbox_roundtrip_and_containment.2.2.1 _ (by decide),
    (sandbox_roundtrip_and_containment.2.2.2.1 _ (by decide)).1,
    sandbox_roundtrip_and_containment.2.2.2.2.1 _ (by decide) (by decide)
      (by decide) (by decide),
    ?_, h6.2⟩
  rw [h6.1]
  decide

/-! ## C10: in-place mutation of the caller's `gwl_files` mapping -/

theorem lookupD_dictUpdate_self (d : List (Str × Str)) (key v : Str) :
    lookupD (dictUpdate d key v) key = (lookupD d key).map (fun _ => v) := by
  induction d with
  | nil => rfl
  | cons kv t ih =>
    obtain ⟨a, w⟩ := kv
    have hcons : dictUpdate ((a, w) :: t) key v =
        (if a = key then (key, v) else (a, w)) :: dictUpdate t key v := rfl
    rw [hcons]
    by_cases hk : a = key
    · subst hk
      rw [if_pos rfl]
      simp [lookupD]
    · rw [if_neg hk]
      simp [lookupD, hk, ih]

theorem lookupD_dictUpdate_ne (d : List (Str × Str)) (key v k : Str)
    (h : k ≠ key) :
    lookupD (dictUpdate d key v) k = lookupD d k := by
  induction d with
  | nil => rfl
  | cons kv t ih =>
    obtain ⟨a, w⟩ := kv
    have hcons : dictUpdate ((a, w) :: t) key v =
        (if a = key then (key, v) else (a, w)) :: dictUpdate t key v := rfl
    rw [hcons]
    by_cases hk : a = key
    · subst hk
      rw [if_pos rfl]
      have hkey : ¬ (a = k) := fun hEq => h hEq.symm
      simp [lookupD, hkey, ih]
    · rw [if_neg hk]
      by_cases hak : a = k
      · simp [lookupD, hak]
      · simp [lookupD, hak, ih]

/-- C10: `execute_complex_gwl_files` mutates the caller's `gwl_files` mapping
in place — after a call with a valid `start_name`, the mapping holds the
original content of `start_name` wrapped in the sentinel/synchronize
envelope under that key, while the entry of every other key is unchanged. -/
theorem execute_complex_mutates_start_entry (fs : List (Str × Str))
    (tmp start_name : Str) (gwl_files : List (Str × Str)) (content : Str)
    (h : lookupD gwl_files start_name = some content) :
    ∃ fs2, execute_complex_gwl_files fs tmp start_name gwl_files =
        some (dictUpdate gwl_files start_name (wrapCommands content), fs2) ∧
      lookupD (dictUpdate gwl_files start_name (wrapCommands content))
          start_name = some (wrapCommands content) ∧
      ∀ k, k ≠ start_name →
        lookupD (dictUpdate gwl_files start_name (wrapCommands content)) k =
          lookupD gwl_files k := by
  unfold execute_complex_gwl_files
  rw [h]
  refine ⟨_, rfl, ?_, fun k hk => lookupD_dictUpdate_ne _ _ _ _ hk⟩
  rw [lookupD_dictUpdate_self, h]
  rfl

/-- Witness for C10 at a concrete two-file set. -/
theorem execute_complex_mutates_start_entry_witness :
    ∃ fs2, execute_complex_gwl_files [] tmpFolder (("start.gwl").data)
        [(("start.gwl").data, ("MessageOut hi").data),
         (("helper.gwl").data, ("MessageOut aux").data)] =
      some (dictUpdate
        [(("start.gwl").data, ("MessageOut hi").data),
         (("helper.gwl").data, ("MessageOut aux").data)]
        (("start.gwl").data) (wrapCommands (("MessageOut hi").data)), fs2) ∧
      lookupD (dictUpdate
        [(("start.gwl").data, ("MessageOut hi").data),
         (("helper.gwl").data, ("MessageOut aux").data)]
        (("start.gwl").data) (wrapCommands (("MessageOut hi").data)))
        (("start.gwl").data) = some (wrapCommands (("MessageOut hi").data)) ∧
      ∀ k, k ≠ ("start.gwl").data →
        lookupD (dictUpdate
          [(("start.gwl").data, ("MessageOut hi").data),
           (("helper.gwl").data, ("MessageOut aux").data)]
          (("start.gwl").data) (wrapCommands (("MessageOut hi").data))) k =
        lookupD [(("start.gwl").data, ("MessageOut hi").data),
                 (("helper.gwl").data, ("MessageOut aux").data)] k :=
  execute_complex_mutates_start_entry [] tmpFolder _ _ _ (by decide)
